import Mathlib

/-!
Shallow embedding of the DTN symbol downloader
(`dtn_symbol_downloader.py`, `process_symbols.py`).

The harvest engine `download_all_symbols`, the retrying page fetcher
`search_symbols`, the merge/dedup step, the partition step
`split_symbols_by_exchange_and_type` and the downstream consumer
`process_and_store_symbols` are translated from the source.  The HTTP
transport is an oracle parameter (one classified outcome per attempt for
the fetcher; one `Option Page` per engine fetch, `none` meaning the
fetcher exhausted its attempts and returned `None`).  Timed waits have no
observable state effect; the fetcher records the sequence of sleep
durations so that the backoff schedule can be stated.  The file system
(batch files, the checkpoint file `download_state.json`, the merged
output `all_symbols_latest.csv`) is an explicit record threaded through
the engine.
-/

/-- One row of symbol data.  The engine only inspects the `symbol` key
(dedup), and the partition step inspects `exchange` and `securityType`;
remaining columns are kept as an opaque association list. -/
structure Record where
  symbol : String
  exchange : String
  securityType : String
  rest : List (String × String)
  deriving DecidableEq, Repr

/-- The decoded `data` field of a successful response, with the fields the
engine reads via `result.get(...)` (defaults applied by the embedding's
callers exactly where the source applies them). -/
structure Page where
  symbolList : List Record
  totalFound : Nat
  hasMore : Bool
  nextKey : Option String
  deriving DecidableEq, Repr

/-- Classified outcome of one HTTP attempt inside `search_symbols`:
200 with a `data` field, 200 with an `errors` field, 200 with neither,
a non-200 status with a body, or one of the three caught exception kinds. -/
inductive Attempt where
  | httpOkData (page : Page)
  | httpOkErrors (errs : List String)
  | httpOkOther
  | httpErr (status : Nat) (body : String)
  | timeoutExc
  | connExc (msg : String)
  | otherExc (msg : String)
  deriving DecidableEq, Repr

/-- Observable behaviour of one `search_symbols` call: the returned value
(`some page` or `None`), the final value of the local `last_error`
(which the source logs on exhaustion), the number of attempts entered,
and the chronological list of back-off sleep durations in seconds. -/
structure FetchTrace where
  result : Option Page
  lastError : Option String
  attemptsMade : Nat
  sleeps : List Nat
  deriving DecidableEq, Repr

/-- Character-list test used to embed Python's `needle in haystack`. -/
def hasPre : List Char → List Char → Bool
  | [], _ => true
  | _ :: _, [] => false
  | a :: as, b :: bs => a == b && hasPre as bs

/-- Substring occurrence test on character lists. -/
def hasSub (needle : List Char) : List Char → Bool
  | [] => needle.isEmpty
  | b :: bs => hasPre needle (b :: bs) || hasSub needle bs

/-- The transient-backend signature tested at line 96 of the source. -/
def backendSigStr : String := "backend search database"

/-- Embeds `'backend search database' in error_msg`. -/
def hasBackendSig (msg : String) : Bool :=
  hasSub backendSigStr.toList msg.toList

/-- Embeds the message `f"HTTP {response.status_code}: {response.text[:200]}"`. -/
def httpErrMsg (status : Nat) (body : String) : String :=
  "HTTP " ++ toString status ++ ": " ++ body.take 200

/-- One pass of the `for attempt in range(retry_count)` loop of
`search_symbols` (source lines 81-139), structurally recursive on the
number of remaining loop iterations; `attempt` is the 0-based index the
source iterates over, so calls start from `searchGo ... retry_count 0`.
Each branch mirrors one classification arm: attempt outcomes with a
back-off path append the slept duration; branches without a `continue`
fall through to the next iteration with `last_error` updated. -/
def searchGo (oracle : Nat → Attempt) (retry_count retry_delay : Nat) :
    Nat → Nat → Option String → List Nat → FetchTrace
  | 0, attempt, last_error, sleeps => ⟨none, last_error, attempt, sleeps⟩
  | remaining + 1, attempt, last_error, sleeps =>
    match oracle attempt with
    | .httpOkData page => ⟨some page, last_error, attempt + 1, sleeps⟩
    | .httpOkErrors errs =>
      let error_msg := errs.headD "Unknown error"
      if hasBackendSig error_msg ∧ attempt < retry_count - 1 then
        searchGo oracle retry_count retry_delay remaining (attempt + 1)
          last_error (sleeps ++ [retry_delay * (attempt + 2)])
      else
        searchGo oracle retry_count retry_delay remaining (attempt + 1)
          (some error_msg) sleeps
    | .httpOkOther =>
      searchGo oracle retry_count retry_delay remaining (attempt + 1)
        (some "Unexpected response structure") sleeps
    | .httpErr status body =>
      let msg := httpErrMsg status body
      if 500 ≤ status ∧ attempt < retry_count - 1 then
        searchGo oracle retry_count retry_delay remaining (attempt + 1)
          (some msg) (sleeps ++ [retry_delay * (attempt + 1)])
      else
        searchGo oracle retry_count retry_delay remaining (attempt + 1)
          (some msg) sleeps
    | .timeoutExc =>
      if attempt < retry_count - 1 then
        searchGo oracle retry_count retry_delay remaining (attempt + 1)
          (some "Request timed out") (sleeps ++ [retry_delay])
      else
        searchGo oracle retry_count retry_delay remaining (attempt + 1)
          (some "Request timed out") sleeps
    | .connExc m =>
      let msg := "Connection error: " ++ m
      if attempt < retry_count - 1 then
        searchGo oracle retry_count retry_delay remaining (attempt + 1)
          (some msg) (sleeps ++ [retry_delay * (attempt + 1)])
      else
        searchGo oracle retry_count retry_delay remaining (attempt + 1)
          (some msg) sleeps
    | .otherExc m =>
      let msg := "Unexpected error: " ++ m
      if attempt < retry_count - 1 then
        searchGo oracle retry_count retry_delay remaining (attempt + 1)
          (some msg) (sleeps ++ [retry_delay])
      else
        searchGo oracle retry_count retry_delay remaining (attempt + 1)
          (some msg) sleeps

/-- Embeds `search_symbols` (default `retry_count=3`, `retry_delay=5`):
runs the attempt loop from attempt index 0 with `last_error = None`. -/
def search_symbols (oracle : Nat → Attempt) (retry_count retry_delay : Nat) :
    FetchTrace :=
  searchGo oracle retry_count retry_delay retry_count 0 none []

/-- Default `retry_count` of `search_symbols`. -/
def default_retry_count : Nat := 3

/-- Default `retry_delay` of `search_symbols`. -/
def default_retry_delay : Nat := 5

/-- The description the source stores in `last_error` for a failing
attempt of each classification. -/
def describeFail : Attempt → String
  | .httpOkData _ => ""
  | .httpOkErrors errs => errs.headD "Unknown error"
  | .httpOkOther => "Unexpected response structure"
  | .httpErr status body => httpErrMsg status body
  | .timeoutExc => "Request timed out"
  | .connExc m => "Connection error: " ++ m
  | .otherExc m => "Unexpected error: " ++ m

/-- Contents of `download_state.json` as written by the engine
(source lines 272-281). -/
structure StateJson where
  batch : Nat
  next_key : Option String
  total_symbols : Nat
  total_reported : Nat
  deriving DecidableEq, Repr

/-- The output directory: batch files keyed by batch number, the
checkpoint file (`none` = absent, `some none` = present but unreadable,
`some (some st)` = present and parseable), and the merged output file. -/
structure FS where
  batches : List (Nat × List Record)
  stateFile : Option (Option StateJson)
  mergedFile : Option (List Record)
  deriving DecidableEq, Repr

/-- Lookup of a batch file by batch number (`os.path.exists` + read). -/
def getAssoc : List (Nat × List Record) → Nat → Option (List Record)
  | [], _ => none
  | (k, v) :: t, n => if k = n then some v else getAssoc t n

/-- Overwriting write of a batch file by batch number. -/
def setAssoc : List (Nat × List Record) → Nat → List Record → List (Nat × List Record)
  | [], n, v => [(n, v)]
  | (k, w) :: t, n, v =>
    if k = n then (n, v) :: t else (k, w) :: setAssoc t n v

/-- A fresh output directory. -/
def emptyFS : FS := ⟨[], none, none⟩

/-- Embeds `save_symbols_batch`: writes `batch_{batch_number}.csv`. -/
def save_symbols_batch (fs : FS) (symbols : List Record) (batch_number : Nat) : FS :=
  { fs with batches := setAssoc fs.batches batch_number symbols }

/-- Overwriting write of `download_state.json`. -/
def writeStateFile (fs : FS) (st : StateJson) : FS :=
  { fs with stateFile := some (some st) }

/-- In-memory state of the `while True` loop of `download_all_symbols`:
the accumulated dataframes, the current batch number, cursor, counters,
the consecutive-failure counter and the file system. -/
structure LoopState where
  all_dataframes : List (List Record)
  batch : Nat
  next_key : Option String
  total_symbols : Nat
  total_reported : Nat
  consecutive_errors : Nat
  fs : FS
  deriving DecidableEq, Repr

/-- `max_consecutive_errors` (source line 161). -/
def max_consecutive_errors : Nat := 3

/-- Which `break` statement ended the loop: too many consecutive errors
(line 219), empty `symbolList` (line 241), `hasMore` false or null
cursor (line 285), or the safety limit of 1000 batches (line 292). -/
inductive BreakReason where
  | aborted
  | emptyPage
  | endOfData
  | ceiling
  deriving DecidableEq, Repr

/-- First-occurrence-wins deduplication on the `symbol` column, the
semantics of `drop_duplicates(subset=['symbol'])`; `seen` is the set of
keys already kept. -/
def dedupGo (seen : List String) : List Record → List Record
  | [] => []
  | r :: rs =>
    if r.symbol ∈ seen then dedupGo seen rs
    else r :: dedupGo (r.symbol :: seen) rs

/-- Embeds `combined_df.drop_duplicates(subset=['symbol'])`. -/
def dedupBySymbol (l : List Record) : List Record := dedupGo [] l

/-- The merge step of lines 312-316: `pd.concat(all_dataframes)` in list
order followed by the dedup-by-symbol pass. -/
def mergeStep (dfs : List (List Record)) : List Record :=
  dedupBySymbol dfs.flatten

/-- Loads previously written batch files `batch_i.csv` for the given
batch numbers, skipping absent files, accumulating the dataframe list
and the running `total_symbols` (source lines 167-173). -/
def loadBatches (fs : FS) : List Nat → List (List Record) × Nat → List (List Record) × Nat
  | [], acc => acc
  | i :: is, (dfs, tot) =>
    match getAssoc fs.batches i with
    | some df => loadBatches fs is (dfs ++ [df], tot + df.length)
    | none => loadBatches fs is (dfs, tot)

/-- The initialisation of `download_all_symbols` (source lines 154-186):
`batch = resume_from_batch if resume_from_batch else 1`; when resuming
from a batch number above 1, previously written batches are reloaded and
`next_key` / `total_reported` are restored from the checkpoint file,
falling back to the fresh defaults when it is absent or unreadable. -/
def initState (resume_from_batch : Option Nat) (fs : FS) : LoopState :=
  let batch := match resume_from_batch with
    | some n => if n = 0 then 1 else n
    | none => 1
  let doResume := match resume_from_batch with
    | some n => decide (n ≠ 0) && decide (1 < n)
    | none => false
  if doResume then
    let loaded := loadBatches fs (List.range' 1 (batch - 1)) ([], 0)
    let restored : Option String × Nat := match fs.stateFile with
      | some (some st) => (st.next_key, st.total_reported)
      | _ => (none, 0)
    { all_dataframes := loaded.1, batch := batch, next_key := restored.1,
      total_symbols := loaded.2, total_reported := restored.2,
      consecutive_errors := 0, fs := fs }
  else
    { all_dataframes := [], batch := batch, next_key := none,
      total_symbols := 0, total_reported := 0,
      consecutive_errors := 0, fs := fs }

/-- One iteration of the `while True` loop (source lines 201-292).
`backend` abstracts `self.search_symbols(next_key)` as seen by the
engine: `none` is a fetch whose retries were exhausted.  `Sum.inl` is a
`continue`/fall-through to the next iteration, `Sum.inr` is a `break`
tagged with which break statement fired. -/
def loopStep (backend : Option String → Option Page) (s : LoopState) :
    Sum LoopState (BreakReason × LoopState) :=
  match backend s.next_key with
  | none =>
    let ce := s.consecutive_errors + 1
    if max_consecutive_errors ≤ ce then
      Sum.inr (BreakReason.aborted, { s with consecutive_errors := ce })
    else
      Sum.inl { s with consecutive_errors := ce }
  | some result =>
    let tr2 := if s.batch = 1 ∧ 0 < result.totalFound
      then result.totalFound else s.total_reported
    let s2 := { s with consecutive_errors := 0, total_reported := tr2 }
    if result.symbolList.isEmpty then
      Sum.inr (BreakReason.emptyPage, s2)
    else
      let s3 := { s2 with
        fs := save_symbols_batch s2.fs result.symbolList s2.batch,
        all_dataframes := s2.all_dataframes ++ [result.symbolList],
        total_symbols := s2.total_symbols + result.symbolList.length,
        next_key := result.nextKey }
      let st : StateJson :=
        ⟨s3.batch + 1, result.nextKey, s3.total_symbols, s3.total_reported⟩
      let s4 := { s3 with fs := writeStateFile s3.fs st }
      if result.hasMore = false ∨ result.nextKey = none then
        Sum.inr (BreakReason.endOfData, s4)
      else
        let s5 := { s4 with batch := s4.batch + 1 }
        if 1000 < s5.batch then Sum.inr (BreakReason.ceiling, s5)
        else Sum.inl s5

/-- Runs the loop with explicit fuel; `none` means the fuel ran out
before any break statement fired. -/
def runLoop (backend : Option String → Option Page) :
    Nat → LoopState → Option (BreakReason × LoopState)
  | 0, _ => none
  | fuel + 1, s =>
    match loopStep backend s with
    | Sum.inr rs => some rs
    | Sum.inl s1 => runLoop backend fuel s1

/-- Runs the loop for a fixed number of iterations, reporting whether it
is still inside the loop (`Sum.inl`) or has broken out (`Sum.inr`).
Used to name the in-memory state at an interruption point. -/
def iterLoop (backend : Option String → Option Page) :
    Nat → LoopState → Sum LoopState (BreakReason × LoopState)
  | 0, s => Sum.inl s
  | n + 1, s =>
    match loopStep backend s with
    | Sum.inl s1 => iterLoop backend n s1
    | Sum.inr rs => Sum.inr rs

/-- The post-loop combine step (source lines 309-347): when any
dataframes were accumulated, concatenate them in order, dedup by symbol,
write `all_symbols_latest.csv`, delete `download_state.json`, and return
the combined dataframe; otherwise return `None` leaving the directory
untouched. -/
def finalize (s : LoopState) : Option (List Record) × FS :=
  if s.all_dataframes.isEmpty then (none, s.fs)
  else
    let combined := mergeStep s.all_dataframes
    (some combined, { s.fs with mergedFile := some combined, stateFile := none })

/-- Embeds `download_all_symbols`: initialisation, the fuelled loop, and
the combine step.  The result carries which break ended the loop, the
returned dataframe (`None` on the no-data path) and the final state of
the output directory. -/
def download_all_symbols (backend : Option String → Option Page)
    (fuel : Nat) (resume_from_batch : Option Nat) (fs0 : FS) :
    Option (BreakReason × Option (List Record) × FS) :=
  match runLoop backend fuel (initState resume_from_batch fs0) with
  | none => none
  | some (r, s) =>
    let fin := finalize s
    some (r, fin.1, fin.2)

/-- How the `download_all_symbols` call inside `main` behaves: returns a
value, or raises (operator interrupt / any other exception). -/
inductive DownloadOutcome where
  | returns (df : Option (List Record))
  | raisesKeyboardInterrupt
  | raisesException (msg : String)
  deriving DecidableEq, Repr

/-- Observable end of a `main` run: a clean exit (recording whether the
batch-file cleanup ran) or an exception escaping `main`. -/
inductive MainResult where
  | exitsCleanly (cleanedBatchFiles : Bool)
  | crash (msg : String)
  deriving DecidableEq, Repr

/-- Embeds the `try/except/finally` of `main` (source lines 395-521).
The local `result_df` is bound only by the assignment on line 397 inside
the `try`; both `except` clauses catch and log, and then the `finally`
block evaluates `result_df is not None` — reading an unbound local in
Python raises `UnboundLocalError`, which escapes `main`. -/
def main_run (outcome : DownloadOutcome) : MainResult :=
  let result_df : Option (Option (List Record)) :=
    match outcome with
    | .returns df => some df
    | .raisesKeyboardInterrupt => none
    | .raisesException _ => none
  match result_df with
  | none =>
    MainResult.crash "UnboundLocalError: local variable result_df referenced before assignment"
  | some df =>
    match df with
    | some l => MainResult.exitsCleanly (decide (0 < l.length))
    | none => MainResult.exitsCleanly false

/-- Content of the partition file `<output>/by_exchange/<exchange>/<secType>.csv`
written by `split_symbols_by_exchange_and_type` (source lines 360-382):
grouping by `exchange` and then by `securityType` preserves row order
within a group, so the file for a pair holds exactly the rows of the
merged dataframe matching both values, in their original order.  A file
is written only when this list is nonempty. -/
def split_symbols_by_exchange_and_type (df : List Record)
    (exchange secType : String) : List Record :=
  df.filter fun r => r.exchange == exchange && r.securityType == secType

/-- The per-(exchange, securityType) group the downstream consumer
`process_and_store_symbols` (process_symbols.py lines 81-102) publishes
under `symbols:{exchange_name}:{sec_type}`: the rows of one CSV file
filtered to the target exchange and grouped by security type. -/
def process_and_store_symbols (fileRows : List Record)
    (exchange_name sec_type : String) : List Record :=
  (fileRows.filter fun r => r.exchange == exchange_name).filter
    fun r => r.securityType == sec_type

/-! Support definitions for the claim theorems (concrete inputs used by
witnesses, and the state named at an interruption point). -/

/-- A concrete record used by concrete runs. -/
def wr1 : Record := ⟨"AAPL", "NYSE", "EQUITY", []⟩

/-- A second concrete record with a distinct symbol key. -/
def wr2 : Record := ⟨"MSFT", "NASDAQ", "EQUITY", []⟩

/-- Backend whose first page succeeds (one record, more data advertised)
and whose second page fails on every attempt: after the success the
engine accumulates three consecutive fetch failures on cursor `k1`. -/
def bugBackend : Option String → Option Page := fun c =>
  match c with
  | none => some ⟨[wr1], 1, true, some "k1"⟩
  | some _ => none

/-- Backend serving two pages then reporting the end of the stream. -/
def okBackend : Option String → Option Page := fun c =>
  match c with
  | none => some ⟨[wr1], 2, true, some "k1"⟩
  | some k => if k = "k1" then some ⟨[wr2], 0, false, none⟩ else none

/-- The in-memory loop state of the fresh `okBackend` run right after
its first fully checkpointed batch (the interruption point used by the
resumability witness). -/
def wS4 : LoopState :=
  match iterLoop okBackend 1 (initState none emptyFS) with
  | Sum.inl s => s
  | Sum.inr (_, s) => s

/-- One-page backend whose single page carries `hasMore=false`; used by
the no-state-file resume witness. -/
def wPage : Page := ⟨[wr1], 1, false, none⟩

/-- Backend returning `wPage` for every cursor. -/
def wBackend : Option String → Option Page := fun _ => some wPage

/-- Output directory holding a batch file 1 with the same records as the
stream's first page but no checkpoint file. -/
def wFS : FS := ⟨[(1, [wr1]), (2, [wr2])], none, none⟩

/-- The loop state after the run resumed from batch 2 over `wFS` breaks
(fetched the first page again, saved it as batch 2, hit end of data). -/
def wS : LoopState :=
  match runLoop wBackend 1 (initState (some 2) wFS) with
  | some (_, s) => s
  | none => initState (some 2) wFS

/-- Classifies an attempt outcome the source never retries with a
back-off sleep: a non-200 status below 500, an HTTP 200 `errors` body
whose first message lacks the transient-backend signature, or an HTTP
200 body with neither `data` nor `errors`. -/
def isClientOrLogicError : Attempt → Bool
  | .httpErr status _ => decide (status < 500)
  | .httpOkErrors errs => !(hasBackendSig (errs.headD "Unknown error"))
  | .httpOkOther => true
  | _ => false

/-- The batch files a fresh run leaves on disk after its dataframes were
saved in order starting at the given batch number. -/
def canonicalBatches : List (List Record) → Nat → List (Nat × List Record)
  | [], _ => []
  | df :: rest, j => (j, df) :: canonicalBatches rest (j + 1)

/-- Shape of the in-memory loop state immediately after the N-th fully
checkpointed batch of a fresh run: the batch counter has advanced to
N + 1, the failure counter is clear, the N saved dataframes are on disk
as `batch_1.csv` .. `batch_N.csv`, and the checkpoint file holds the
four fields the engine wrote after batch N. -/
def postBatchState (s : LoopState) (N : Nat) : Prop :=
  s.batch = N + 1 ∧
  s.consecutive_errors = 0 ∧
  s.all_dataframes.length = N ∧
  s.total_symbols = (s.all_dataframes.map List.length).sum ∧
  s.fs.batches = canonicalBatches s.all_dataframes 1 ∧
  s.fs.stateFile = some (some ⟨N + 1, s.next_key, s.total_symbols, s.total_reported⟩)

instance (s : LoopState) (N : Nat) : Decidable (postBatchState s N) := by
  unfold postBatchState; infer_instance

/-- The loop state carried by either outcome of one loop iteration. -/
def stepState : Sum LoopState (BreakReason × LoopState) → LoopState
  | Sum.inl s => s
  | Sum.inr (_, s) => s

/-! Lemmas about the retrying page fetcher. -/

/-- When no attempt in the remaining window returns a `data` body, the
loop runs to exhaustion: the call returns `None` after entering every
attempt. -/
theorem searchGo_exhaust (oracle : Nat → Attempt) (rc rd : Nat) :
    ∀ remaining attempt le sl,
      attempt + remaining = rc →
      (∀ i, attempt ≤ i → i < rc → ∀ p, oracle i ≠ Attempt.httpOkData p) →
      (searchGo oracle rc rd remaining attempt le sl).result = none ∧
      (searchGo oracle rc rd remaining attempt le sl).attemptsMade
        = attempt + remaining := by
  intro remaining
  induction remaining with
  | zero => intro attempt le sl _ _; exact ⟨rfl, rfl⟩
  | succ r ih =>
    intro attempt le sl halign hno
    have hno' : ∀ i, attempt + 1 ≤ i → i < rc → ∀ p, oracle i ≠ Attempt.httpOkData p :=
      fun i hi => hno i (by omega)
    have halign' : (attempt + 1) + r = rc := by omega
    have harith : (attempt + 1) + r = attempt + (r + 1) := by omega
    cases h : oracle attempt with
    | httpOkData p => exact absurd h (hno attempt (le_refl _) (by omega) p)
    | httpOkErrors errs =>
      simp only [searchGo, h]
      split
      · rw [← harith]; exact ih _ _ _ halign' hno'
      · rw [← harith]; exact ih _ _ _ halign' hno'
    | httpOkOther =>
      simp only [searchGo, h]
      rw [← harith]; exact ih _ _ _ halign' hno'
    | httpErr status body =>
      simp only [searchGo, h]
      split
      · rw [← harith]; exact ih _ _ _ halign' hno'
      · rw [← harith]; exact ih _ _ _ halign' hno'
    | timeoutExc =>
      simp only [searchGo, h]
      split
      · rw [← harith]; exact ih _ _ _ halign' hno'
      · rw [← harith]; exact ih _ _ _ halign' hno'
    | connExc m =>
      simp only [searchGo, h]
      split
      · rw [← harith]; exact ih _ _ _ halign' hno'
      · rw [← harith]; exact ih _ _ _ halign' hno'
    | otherExc m =>
      simp only [searchGo, h]
      split
      · rw [← harith]; exact ih _ _ _ halign' hno'
      · rw [← harith]; exact ih _ _ _ halign' hno'

/-- When no attempt succeeds and the loop window is aligned with the
source's `range(retry_count)` loop, the final `last_error` is the
description of the very last attempt: every classification arm of the
last iteration assigns `last_error` (the transient-backend arm only
skips the assignment when a further attempt remains). -/
theorem searchGo_lastError (oracle : Nat → Attempt) (rc rd : Nat) :
    ∀ remaining attempt le sl,
      attempt + remaining = rc → 1 ≤ remaining →
      (∀ i, attempt ≤ i → i < rc → ∀ p, oracle i ≠ Attempt.httpOkData p) →
      (searchGo oracle rc rd remaining attempt le sl).lastError
        = some (describeFail (oracle (rc - 1))) := by
  intro remaining
  induction remaining with
  | zero => intro attempt le sl _ h2 _; omega
  | succ r ih =>
    intro attempt le sl halign hr hno
    have hno' : ∀ i, attempt + 1 ≤ i → i < rc → ∀ p, oracle i ≠ Attempt.httpOkData p :=
      fun i hi => hno i (by omega)
    rcases Nat.eq_zero_or_pos r with hr0 | hrpos
    · subst hr0
      have hlast : attempt = rc - 1 := by omega
      have hnotlt : ¬ attempt < rc - 1 := by omega
      subst hlast
      cases h : oracle (rc - 1) with
      | httpOkData p => exact absurd h (hno (rc - 1) (le_refl _) (by omega) p)
      | httpOkErrors errs =>
        simp only [searchGo, h]
        rw [if_neg (by exact fun hc => hnotlt hc.2)]
        simp only [searchGo, describeFail]
      | httpOkOther =>
        simp only [searchGo, h, describeFail]
      | httpErr status body =>
        simp only [searchGo, h]
        split <;> simp only [searchGo, describeFail]
      | timeoutExc =>
        simp only [searchGo, h]
        split <;> simp only [searchGo, describeFail]
      | connExc m =>
        simp only [searchGo, h]
        split <;> simp only [searchGo, describeFail]
      | otherExc m =>
        simp only [searchGo, h]
        split <;> simp only [searchGo, describeFail]
    · have halign' : (attempt + 1) + r = rc := by omega
      have hr' : 1 ≤ r := hrpos
      cases h : oracle attempt with
      | httpOkData p => exact absurd h (hno attempt (le_refl _) (by omega) p)
      | httpOkErrors errs =>
        simp only [searchGo, h]
        split
        · exact ih _ _ _ halign' hr' hno'
        · exact ih _ _ _ halign' hr' hno'
      | httpOkOther =>
        simp only [searchGo, h]
        exact ih _ _ _ halign' hr' hno'
      | httpErr status body =>
        simp only [searchGo, h]
        split
        · exact ih _ _ _ halign' hr' hno'
        · exact ih _ _ _ halign' hr' hno'
      | timeoutExc =>
        simp only [searchGo, h]
        split
        · exact ih _ _ _ halign' hr' hno'
        · exact ih _ _ _ halign' hr' hno'
      | connExc m =>
        simp only [searchGo, h]
        split
        · exact ih _ _ _ halign' hr' hno'
        · exact ih _ _ _ halign' hr' hno'
      | otherExc m =>
        simp only [searchGo, h]
        split
        · exact ih _ _ _ halign' hr' hno'
        · exact ih _ _ _ halign' hr' hno'

/-- Full behaviour of the attempt loop when every remaining attempt is a
server error (status at least 500): the back-off path fires on each
attempt but the last, appending `retry_delay * (attemptIndex + 1)`
seconds per failed attempt, and the call exhausts every attempt. -/
theorem searchGo_server_errors (oracle : Nat → Attempt) (rc rd : Nat)
    (c : Nat → Nat) (b : Nat → String) :
    ∀ remaining attempt le sl,
      attempt + remaining = rc → 1 ≤ remaining →
      (∀ i, attempt ≤ i → i < rc → oracle i = Attempt.httpErr (c i) (b i) ∧ 500 ≤ c i) →
      searchGo oracle rc rd remaining attempt le sl =
        ⟨none, some (httpErrMsg (c (rc - 1)) (b (rc - 1))), rc,
          sl ++ (List.range' attempt (remaining - 1)).map (fun i => rd * (i + 1))⟩ := by
  intro remaining
  induction remaining with
  | zero => intro attempt le sl _ h2 _; omega
  | succ r ih =>
    intro attempt le sl halign hr hcls
    have hor : oracle attempt = Attempt.httpErr (c attempt) (b attempt) :=
      (hcls attempt (le_refl _) (by omega)).1
    rcases Nat.eq_zero_or_pos r with hr0 | hrpos
    · subst hr0
      have hlast : attempt = rc - 1 := by omega
      have hnotlt : ¬ attempt < rc - 1 := by omega
      simp only [searchGo, hor]
      rw [if_neg (by exact fun hc => hnotlt hc.2)]
      simp only [searchGo, hlast]
      simp
      omega
    · have halign' : (attempt + 1) + r = rc := by omega
      have hlt : attempt < rc - 1 := by omega
      have hcls' : ∀ i, attempt + 1 ≤ i → i < rc →
          oracle i = Attempt.httpErr (c i) (b i) ∧ 500 ≤ c i :=
        fun i hi hir => hcls i (by omega) hir
      simp only [searchGo, hor]
      rw [if_pos ⟨(hcls attempt (le_refl _) (by omega)).2, hlt⟩]
      rw [ih (attempt + 1) (some (httpErrMsg (c attempt) (b attempt)))
        (sl ++ [rd * (attempt + 1)]) halign' hrpos hcls']
      simp only [FetchTrace.mk.injEq, true_and]
      have hr1 : r + 1 - 1 = (r - 1) + 1 := by omega
      rw [hr1]
      have hcons : List.range' attempt ((r - 1) + 1) =
          attempt :: List.range' (attempt + 1) (r - 1) := by
        simp [List.range']
      rw [hcons]
      simp [List.append_assoc]

/-- Full behaviour of the attempt loop when every remaining attempt is a
non-retryable classification (non-200 status below 500, unknown error
message, or malformed 200 body): no back-off sleep is inserted and no
early return happens — the loop still visits every attempt and returns
the failure only after exhausting them. -/
theorem searchGo_client_errors (oracle : Nat → Attempt) (rc rd : Nat) :
    ∀ remaining attempt le sl,
      attempt + remaining = rc → 1 ≤ remaining →
      (∀ i, attempt ≤ i → i < rc → isClientOrLogicError (oracle i) = true) →
      searchGo oracle rc rd remaining attempt le sl =
        ⟨none, some (describeFail (oracle (rc - 1))), rc, sl⟩ := by
  intro remaining
  induction remaining with
  | zero => intro attempt le sl _ h2 _; omega
  | succ r ih =>
    intro attempt le sl halign hr hcls
    have hclsa := hcls attempt (le_refl _) (by omega)
    rcases Nat.eq_zero_or_pos r with hr0 | hrpos
    · subst hr0
      have hlast : attempt = rc - 1 := by omega
      have hrc1 : rc - 1 + 1 = rc := by omega
      subst hlast
      cases h : oracle (rc - 1) with
      | httpOkData p => rw [h] at hclsa; simp [isClientOrLogicError] at hclsa
      | httpOkErrors errs =>
        rw [h] at hclsa
        simp only [isClientOrLogicError, Bool.not_eq_true'] at hclsa
        simp only [searchGo, h]
        rw [if_neg (by intro hc; rw [hclsa] at hc; exact Bool.false_ne_true hc.1)]
        simp only [searchGo, describeFail, hrc1]
      | httpOkOther =>
        simp only [searchGo, h, describeFail, hrc1]
      | httpErr status body =>
        rw [h] at hclsa
        simp only [isClientOrLogicError, decide_eq_true_eq] at hclsa
        simp only [searchGo, h]
        rw [if_neg (by intro hc; omega)]
        simp only [searchGo, describeFail, hrc1]
      | timeoutExc => rw [h] at hclsa; simp [isClientOrLogicError] at hclsa
      | connExc m => rw [h] at hclsa; simp [isClientOrLogicError] at hclsa
      | otherExc m => rw [h] at hclsa; simp [isClientOrLogicError] at hclsa
    · have halign' : (attempt + 1) + r = rc := by omega
      have hcls' : ∀ i, attempt + 1 ≤ i → i < rc → isClientOrLogicError (oracle i) = true :=
        fun i hi hir => hcls i (by omega) hir
      cases h : oracle attempt with
      | httpOkData p => rw [h] at hclsa; simp [isClientOrLogicError] at hclsa
      | httpOkErrors errs =>
        rw [h] at hclsa
        simp only [isClientOrLogicError, Bool.not_eq_true'] at hclsa
        simp only [searchGo, h]
        rw [if_neg (by intro hc; rw [hclsa] at hc; exact Bool.false_ne_true hc.1)]
        exact ih _ _ _ halign' hrpos hcls'
      | httpOkOther =>
        simp only [searchGo, h]
        exact ih _ _ _ halign' hrpos hcls'
      | httpErr status body =>
        rw [h] at hclsa
        simp only [isClientOrLogicError, decide_eq_true_eq] at hclsa
        simp only [searchGo, h]
        rw [if_neg (by intro hc; omega)]
        exact ih _ _ _ halign' hrpos hcls'
      | timeoutExc => rw [h] at hclsa; simp [isClientOrLogicError] at hclsa
      | connExc m => rw [h] at hclsa; simp [isClientOrLogicError] at hclsa
      | otherExc m => rw [h] at hclsa; simp [isClientOrLogicError] at hclsa

/-! Lemmas about the merge/dedup step. -/

/-- The dedup pass only drops rows: its output is a sublist of its
input, so the surviving rows keep their original relative order. -/
theorem dedupGo_sublist (seen : List String) (l : List Record) :
    (dedupGo seen l).Sublist l := by
  induction l generalizing seen with
  | nil => simp [dedupGo]
  | cons r rs ih =>
    simp only [dedupGo]
    split
    · exact (ih seen).cons r
    · exact (ih (r.symbol :: seen)).cons₂ r

/-- No kept row repeats a key that was already recorded as seen. -/
theorem mem_dedupGo_not_seen (seen : List String) (l : List Record) :
    ∀ q ∈ dedupGo seen l, q.symbol ∉ seen := by
  induction l generalizing seen with
  | nil => simp [dedupGo]
  | cons r rs ih =>
    intro q hq
    simp only [dedupGo] at hq
    split at hq
    · exact ih seen q hq
    · rcases List.mem_cons.1 hq with rfl | hq'
      · assumption
      · intro hs
        exact ih (r.symbol :: seen) q hq' (List.mem_cons_of_mem _ hs)

/-- The keys of the dedup output are pairwise distinct. -/
theorem dedupGo_keys_nodup (seen : List String) (l : List Record) :
    ((dedupGo seen l).map (fun q => q.symbol)).Nodup := by
  induction l generalizing seen with
  | nil => simp [dedupGo]
  | cons r rs ih =>
    simp only [dedupGo]
    split
    · exact ih seen
    · rw [List.map_cons, List.nodup_cons]
      refine ⟨?_, ih (r.symbol :: seen)⟩
      intro hmem
      obtain ⟨q, hq, hqs⟩ := List.mem_map.1 hmem
      exact mem_dedupGo_not_seen _ _ q hq (hqs ▸ List.mem_cons_self _ _)

/-- Every key of the input that was not already seen survives into the
output on some representative row. -/
theorem dedupGo_keys_complete (seen : List String) (l : List Record) :
    ∀ q ∈ l, q.symbol ∉ seen → ∃ q' ∈ dedupGo seen l, q'.symbol = q.symbol := by
  induction l generalizing seen with
  | nil => simp
  | cons r rs ih =>
    intro q hq hns
    simp only [dedupGo]
    rcases List.mem_cons.1 hq with rfl | hq'
    · rw [if_neg hns]
      exact ⟨q, List.mem_cons_self _ _, rfl⟩
    · by_cases hr : r.symbol ∈ seen
      · rw [if_pos hr]
        exact ih seen q hq' hns
      · rw [if_neg hr]
        by_cases hqr : q.symbol = r.symbol
        · exact ⟨r, List.mem_cons_self _ _, hqr.symm⟩
        · obtain ⟨q', hq', hqs⟩ := ih (r.symbol :: seen) q hq'
            (by simp [hqr, hns])
          exact ⟨q', List.mem_cons_of_mem _ hq', hqs⟩

/-- First occurrence wins: a row whose key appears in no earlier row
(and is not recorded as seen) is kept verbatim. -/
theorem dedupGo_first_wins (seen : List String) :
    ∀ pre (q : Record) post, q.symbol ∉ seen →
      q.symbol ∉ pre.map (fun x => x.symbol) →
      q ∈ dedupGo seen (pre ++ q :: post) := by
  intro pre
  induction pre generalizing seen with
  | nil =>
    intro q post hns _
    simp only [List.nil_append, dedupGo]
    rw [if_neg hns]
    exact List.mem_cons_self _ _
  | cons x pre' ih =>
    intro q post hns hpre
    have hqx : q.symbol ≠ x.symbol := by
      intro h
      exact hpre (by simp [h])
    have hpre' : q.symbol ∉ pre'.map (fun y => y.symbol) := by
      intro h
      exact hpre (by simp [h])
    simp only [List.cons_append, dedupGo]
    split
    · exact ih seen q post hns hpre'
    · exact List.mem_cons_of_mem _
        (ih (x.symbol :: seen) q post (by simp [hqx, hns]) hpre')

/-- A list whose keys are already pairwise distinct (and disjoint from
the seen set) passes through the dedup unchanged. -/
theorem dedupGo_of_nodup (seen : List String) (l : List Record)
    (hdisj : ∀ q ∈ l, q.symbol ∉ seen)
    (hnd : (l.map (fun q => q.symbol)).Nodup) :
    dedupGo seen l = l := by
  induction l generalizing seen with
  | nil => simp [dedupGo]
  | cons r rs ih =>
    rw [List.map_cons, List.nodup_cons] at hnd
    simp only [dedupGo]
    rw [if_neg (hdisj r (List.mem_cons_self _ _))]
    congr 1
    apply ih
    · intro q hq
      simp only [List.mem_cons, not_or]
      refine ⟨?_, hdisj q (List.mem_cons_of_mem _ hq)⟩
      intro h
      exact hnd.1 (h ▸ List.mem_map_of_mem _ hq)
    · exact hnd.2

/-! Lemmas about the harvest engine. -/

/-- Writing one batch file changes only that batch number's lookup. -/
theorem getAssoc_setAssoc (l : List (Nat × List Record)) (n : Nat)
    (v : List Record) (i : Nat) :
    getAssoc (setAssoc l n v) i = if i = n then some v else getAssoc l i := by
  induction l with
  | nil =>
    simp only [setAssoc, getAssoc]
    by_cases h : i = n
    · subst h; simp
    · rw [if_neg (fun hn => h hn.symm), if_neg h]
  | cons kw t ih =>
    obtain ⟨k, w⟩ := kw
    by_cases hk : k = n <;> by_cases hik : i = n <;>
      simp_all [setAssoc, getAssoc, eq_comm]

/-- Running the loop with combined fuel factors through any state the
loop passes while still iterating. -/
theorem runLoop_of_iterLoop (backend : Option String → Option Page) :
    ∀ k s0 s F, iterLoop backend k s0 = Sum.inl s →
      runLoop backend (k + F) s0 = runLoop backend F s := by
  intro k
  induction k with
  | zero =>
    intro s0 s F h
    simp only [iterLoop, Sum.inl.injEq] at h
    subst h
    simp
  | succ k ih =>
    intro s0 s F h
    cases hstep : loopStep backend s0 with
    | inl s1 =>
      have h1 : iterLoop backend k s1 = Sum.inl s := by
        simpa [iterLoop, hstep] using h
      have harith : k + 1 + F = (k + F) + 1 := by omega
      rw [harith]
      simp only [runLoop, hstep]
      exact ih s1 s F h1
    | inr rs =>
      simp [iterLoop, hstep] at h

/-- Looking up batch number `j + i` in the canonical on-disk layout that
starts at `j` returns the i-th saved dataframe. -/
theorem getAssoc_canonicalBatches (L : List (List Record)) :
    ∀ j i, getAssoc (canonicalBatches L j) (j + i) = L[i]? := by
  induction L with
  | nil => intro j i; simp [canonicalBatches, getAssoc]
  | cons df rest ih =>
    intro j i
    simp only [canonicalBatches, getAssoc]
    by_cases h : i = 0
    · subst h; simp
    · obtain ⟨i', rfl⟩ : ∃ i', i = i' + 1 := ⟨i - 1, by omega⟩
      rw [if_neg (by omega)]
      have harith : j + (i' + 1) = (j + 1) + i' := by omega
      rw [harith, ih]
      simp

/-- Reloading batch files over the batch-number window `[j, j + |M|)`
recovers exactly the dataframes `M` stored there, appended to the
accumulator, with the total advanced by their sizes. -/
theorem loadBatches_canonical (fs : FS) :
    ∀ (M : List (List Record)) (j : Nat) (dfs : List (List Record)) (tot : Nat),
      (∀ i, i < M.length → getAssoc fs.batches (j + i) = M[i]?) →
      loadBatches fs (List.range' j M.length) (dfs, tot)
        = (dfs ++ M, tot + (M.map List.length).sum) := by
  intro M
  induction M with
  | nil => intro j dfs tot _; simp [loadBatches]
  | cons m M' ih =>
    intro j dfs tot h
    have h0 : getAssoc fs.batches j = some m := by
      have := h 0 (by simp)
      simpa using this
    have hcons : List.range' j (m :: M').length
        = j :: List.range' (j + 1) M'.length := by
      simp [List.range']
    rw [hcons]
    simp only [loadBatches, h0]
    have h' : ∀ i, i < M'.length → getAssoc fs.batches ((j + 1) + i) = M'[i]? := by
      intro i hi
      have harith : (j + 1) + i = j + (i + 1) := by omega
      rw [harith]
      have := h (i + 1) (by simpa using Nat.succ_lt_succ hi)
      simpa using this
    rw [ih (j + 1) (dfs ++ [m]) (tot + m.length) h']
    simp [List.append_assoc]
    omega

/-- Loading batch files only appends to the accumulator. -/
theorem loadBatches_acc_prefix (fs : FS) :
    ∀ (is : List Nat) (dfs : List (List Record)) (tot : Nat),
      ∃ X Y, loadBatches fs is (dfs, tot) = (dfs ++ X, tot + Y) := by
  intro is
  induction is with
  | nil => intro dfs tot; exact ⟨[], 0, by simp [loadBatches]⟩
  | cons i is' ih =>
    intro dfs tot
    cases h : getAssoc fs.batches i with
    | none => simpa [loadBatches, h] using ih dfs tot
    | some df =>
      obtain ⟨X, Y, hXY⟩ := ih (dfs ++ [df]) (tot + df.length)
      refine ⟨[df] ++ X, df.length + Y, ?_⟩
      simp only [loadBatches, h, hXY]
      simp [List.append_assoc, Nat.add_assoc]

/-- Re-initialising from the on-disk state left by the N-th checkpoint
reconstructs exactly the in-memory loop state at that point: the loader
recovers the N dataframes and their total, and the checkpoint file
restores the cursor and the reported total. -/
theorem initState_resume_eq (s : LoopState) (N : Nat) (hN : 1 ≤ N)
    (hpost : postBatchState s N) :
    initState (some (N + 1)) s.fs = s := by
  obtain ⟨alldf, batch, nk, ts, tr, ce, fs⟩ := s
  obtain ⟨batches, stateFile, mergedFile⟩ := fs
  obtain ⟨hb, hce, hlen, htot, hbatches, hstate⟩ := hpost
  simp only at hb hce hlen htot hbatches hstate
  subst hb hce htot hbatches hstate
  have hload : loadBatches ⟨canonicalBatches alldf 1, some (some ⟨N + 1, nk, (alldf.map List.length).sum, tr⟩), mergedFile⟩
      (List.range' 1 alldf.length) ([], 0)
      = ([] ++ alldf, 0 + (alldf.map List.length).sum) := by
    apply loadBatches_canonical
    intro i hi
    exact getAssoc_canonicalBatches alldf 1 i
  have hd : (decide (N + 1 ≠ 0) && decide (1 < N + 1)) = true := by
    simp
    omega
  have h1 : N + 1 - 1 = alldf.length := by omega
  simp only [initState, hd, if_true, Nat.succ_ne_zero, if_neg, reduceIte, h1, hload]
  simp

/-- When every fetch succeeds, the loop breaks within the fuel implied
by the safety ceiling (1000 iterations from a fresh start) and never
through the consecutive-failures break. -/
theorem runLoop_term (backend : Option String → Option Page)
    (hbk : ∀ c, (backend c).isSome = true) :
    ∀ fuel s, 1 ≤ s.batch → s.batch ≤ 1000 → 1001 - s.batch ≤ fuel →
      ∃ r s', runLoop backend fuel s = some (r, s') ∧ r ≠ BreakReason.aborted := by
  intro fuel
  induction fuel with
  | zero => intro s h1 h2 h3; omega
  | succ fuel ih =>
    intro s h1 h2 h3
    obtain ⟨p, hp⟩ : ∃ p, backend s.next_key = some p := by
      cases hb : backend s.next_key with
      | none => have := hbk s.next_key; rw [hb] at this; simp at this
      | some p => exact ⟨p, rfl⟩
    simp only [runLoop, loopStep, hp]
    split
    · rename_i rs heq
      split at heq
      · cases heq
        exact ⟨_, _, rfl, by simp⟩
      · split at heq
        · cases heq
          exact ⟨_, _, rfl, by simp⟩
        · split at heq
          · cases heq
            exact ⟨_, _, rfl, by simp⟩
          · simp at heq
    · rename_i s1 heq
      split at heq
      · simp at heq
      · split at heq
        · simp at heq
        · split at heq
          · simp at heq
          · rename_i hceil
            cases heq
            apply ih
            · simp
            · simp only [not_lt] at hceil
              simpa using hceil
            · simp
              omega

/-- One loop iteration never decreases the batch counter, only appends
to the accumulated dataframes, and never touches a batch file whose
number is below the current batch counter. -/
theorem loopStep_inv (backend : Option String → Option Page) (s : LoopState) :
    s.batch ≤ (stepState (loopStep backend s)).batch ∧
    (∃ tl, (stepState (loopStep backend s)).all_dataframes = s.all_dataframes ++ tl) ∧
    (∀ i, i < s.batch → getAssoc (stepState (loopStep backend s)).fs.batches i
        = getAssoc s.fs.batches i) := by
  cases hb : backend s.next_key with
  | none =>
    simp only [loopStep, hb]
    split
    · exact ⟨le_refl _, ⟨[], by simp [stepState]⟩, fun i _ => rfl⟩
    · exact ⟨le_refl _, ⟨[], by simp [stepState]⟩, fun i _ => rfl⟩
  | some p =>
    simp only [loopStep, hb]
    split
    · exact ⟨le_refl _, ⟨[], by simp [stepState]⟩, fun i _ => rfl⟩
    · split
      · refine ⟨le_refl _, ⟨[p.symbolList], by simp [stepState]⟩, ?_⟩
        intro i hi
        simp only [stepState, writeStateFile, save_symbols_batch, getAssoc_setAssoc]
        rw [if_neg (by omega)]
      · split
        · refine ⟨by simp [stepState], ⟨[p.symbolList], by simp [stepState]⟩, ?_⟩
          intro i hi
          simp only [stepState, writeStateFile, save_symbols_batch, getAssoc_setAssoc]
          rw [if_neg (by omega)]
        · refine ⟨by simp [stepState], ⟨[p.symbolList], by simp [stepState]⟩, ?_⟩
          intro i hi
          simp only [stepState, writeStateFile, save_symbols_batch, getAssoc_setAssoc]
          rw [if_neg (by omega)]


/-- The invariants of `loopStep_inv` transported along a whole run. -/
theorem runLoop_inv (backend : Option String → Option Page) :
    ∀ fuel s r s', runLoop backend fuel s = some (r, s') →
      s.batch ≤ s'.batch ∧
      (∃ tl, s'.all_dataframes = s.all_dataframes ++ tl) ∧
      (∀ i, i < s.batch → getAssoc s'.fs.batches i = getAssoc s.fs.batches i) := by
  intro fuel
  induction fuel with
  | zero => intro s r s' h; simp [runLoop] at h
  | succ fuel ih =>
    intro s r s' h
    simp only [runLoop] at h
    cases hstep : loopStep backend s with
    | inr rs =>
      rw [hstep] at h
      obtain ⟨r0, s0⟩ := rs
      have hss : s0 = s' := by
        have : some (r0, s0) = some (r, s') := h
        cases this
        rfl
      have h0 := loopStep_inv backend s
      rw [hstep] at h0
      simp only [stepState] at h0
      rw [hss] at h0
      exact h0
    | inl s1 =>
      rw [hstep] at h
      have h1 := ih s1 r s' h
      have h0 := loopStep_inv backend s
      rw [hstep] at h0
      simp only [stepState] at h0
      obtain ⟨hb0, ⟨tl0, htl0⟩, hfs0⟩ := h0
      obtain ⟨hb1, ⟨tl1, htl1⟩, hfs1⟩ := h1
      refine ⟨le_trans hb0 hb1, ⟨tl0 ++ tl1, by rw [htl1, htl0, List.append_assoc]⟩, ?_⟩
      intro i hi
      rw [hfs1 i (lt_of_lt_of_le hi hb0), hfs0 i hi]

/-- A concatenation whose list of blocks repeats a nonempty block has a
repeated key, so its key list is not duplicate-free. -/
theorem flatten_dup_not_nodup (A : List Record) (hA : A ≠ [])
    (X tl : List (List Record)) :
    ¬(((A :: (X ++ A :: tl)).flatten.map (fun q => q.symbol)).Nodup) := by
  intro h
  obtain ⟨a, rest, hA'⟩ := List.exists_cons_of_ne_nil hA
  rw [List.flatten_cons, List.map_append, List.nodup_append] at h
  obtain ⟨-, -, hdisj⟩ := h
  have hmem1 : a.symbol ∈ A.map (fun q => q.symbol) := by
    rw [hA']
    simp
  have hmem2 : a.symbol ∈ ((X ++ A :: tl).flatten.map (fun q => q.symbol)) := by
    apply List.mem_map_of_mem
    apply List.mem_flatten.2
    exact ⟨A, by simp, by rw [hA']; simp⟩
  exact hdisj hmem1 hmem2

/-- C10: when `download_all_symbols` is called with `resume_from_batch = N > 1`
but `download_state.json` is absent or unreadable, the starting cursor
stays `None`, so fetching restarts at the stream's first page while new
batches are numbered from N upward; the first page's records then sit in
batch file 1 and batch file N simultaneously, the concatenated dataframes
carry duplicate symbols, and only the final dedup-by-symbol pass makes
each symbol appear exactly once in the merged output. -/
theorem resume_without_state_refetches
    (backend : Option String → Option Page) (N : Nat) (fs0 : FS) (p : Page)
    (hN : 1 < N)
    (hstate : fs0.stateFile = none ∨ fs0.stateFile = some none)
    (hpage : backend none = some p)
    (hne : p.symbolList ≠ [])
    (hold : getAssoc fs0.batches 1 = some p.symbolList) :
    (initState (some N) fs0).next_key = none ∧
    (initState (some N) fs0).batch = N ∧
    (∀ fuel r s', runLoop backend fuel (initState (some N) fs0) = some (r, s') →
      getAssoc s'.fs.batches 1 = some p.symbolList ∧
      getAssoc s'.fs.batches N = some p.symbolList ∧
      ¬((s'.all_dataframes.flatten.map (fun q => q.symbol)).Nodup) ∧
      (finalize s').1 = some (mergeStep s'.all_dataframes) ∧
      ((mergeStep s'.all_dataframes).map (fun q => q.symbol)).Nodup) := by
  have hd : (decide (N ≠ 0) && decide (1 < N)) = true := by
    simp
    omega
  have hinit : initState (some N) fs0 =
      { all_dataframes := (loadBatches fs0 (List.range' 1 (N - 1)) ([], 0)).1,
        batch := N, next_key := none,
        total_symbols := (loadBatches fs0 (List.range' 1 (N - 1)) ([], 0)).2,
        total_reported := 0, consecutive_errors := 0, fs := fs0 } := by
    rcases hstate with h | h <;>
      simp only [initState, hd, if_true, h, reduceIte, if_neg (by omega : ¬N = 0)]
  obtain ⟨X, Y, hXY⟩ := loadBatches_acc_prefix fs0 (List.range' 2 (N - 2))
    [p.symbolList] p.symbolList.length
  have hrange : List.range' 1 (N - 1) = 1 :: List.range' 2 (N - 2) := by
    have h2 : N - 1 = (N - 2) + 1 := by omega
    rw [h2]
    simp [List.range']
  have hload1 : loadBatches fs0 (List.range' 1 (N - 1)) ([], 0)
      = ([p.symbolList] ++ X, p.symbolList.length + Y) := by
    rw [hrange]
    simp only [loadBatches, hold]
    simpa using hXY
  have key3 : ∀ (s' : LoopState) (tl : List (List Record)),
      s'.all_dataframes = p.symbolList :: (X ++ p.symbolList :: tl) →
      ¬((s'.all_dataframes.flatten.map (fun q => q.symbol)).Nodup) ∧
      (finalize s').1 = some (mergeStep s'.all_dataframes) ∧
      ((mergeStep s'.all_dataframes).map (fun q => q.symbol)).Nodup := by
    intro s' tl hshape
    refine ⟨?_, ?_, ?_⟩
    · rw [hshape]
      exact flatten_dup_not_nodup p.symbolList hne X tl
    · rw [finalize, if_neg (by rw [hshape]; simp)]
    · exact dedupGo_keys_nodup [] _
  refine ⟨by rw [hinit], by rw [hinit], ?_⟩
  intro fuel r s' hrun
  cases fuel with
  | zero => simp [runLoop] at hrun
  | succ fuel =>
    rw [hinit] at hrun
    have hempty : p.symbolList.isEmpty = false := by simpa using hne
    simp only [runLoop, loopStep, hpage, hempty, Bool.false_eq_true, if_false] at hrun
    have hw1 : ∀ st, getAssoc (writeStateFile (save_symbols_batch fs0 p.symbolList N) st).batches 1
        = some p.symbolList := by
      intro st
      simp only [writeStateFile, save_symbols_batch, getAssoc_setAssoc]
      rw [if_neg (by omega : ¬(1 : Nat) = N)]
      exact hold
    have hwN : ∀ st, getAssoc (writeStateFile (save_symbols_batch fs0 p.symbolList N) st).batches N
        = some p.symbolList := by
      intro st
      simp [writeStateFile, save_symbols_batch, getAssoc_setAssoc]
    have hshape : ∀ tl, (loadBatches fs0 (List.range' 1 (N - 1)) ([], 0)).1
        ++ [p.symbolList] ++ tl = p.symbolList :: (X ++ p.symbolList :: tl) := by
      intro tl
      rw [hload1]
      simp
    split at hrun
    · rename_i rs heq
      split at heq
      · cases heq
        cases hrun
        exact ⟨hw1 _, hwN _, key3 _ [] (by simpa using hshape [])⟩
      · split at heq
        · cases heq
          cases hrun
          exact ⟨hw1 _, hwN _, key3 _ [] (by simpa using hshape [])⟩
        · simp at heq
    · rename_i s1 heq
      split at heq
      · simp at heq
      · split at heq
        · simp at heq
        · cases heq
          obtain ⟨hbb, ⟨tl, htl⟩, hpres⟩ := runLoop_inv backend fuel _ r s' hrun
          refine ⟨?_, ?_, key3 _ tl ?_⟩
          · rw [hpres 1 (by show (1 : Nat) < N + 1; omega)]
            exact hw1 _
          · rw [hpres N (by show N < N + 1; omega)]
            exact hwN _
          · rw [htl]
            simpa using hshape tl

/-- Witness for C10 at a concrete backend and directory: resuming from
batch 2 with no state file restarts at the first page and duplicates it
into batch files 1 and 2. -/
theorem resume_without_state_refetches_witness :
    (initState (some 2) wFS).next_key = none ∧
    (initState (some 2) wFS).batch = 2 ∧
    (getAssoc wS.fs.batches 1 = some [wr1] ∧
     getAssoc wS.fs.batches 2 = some [wr1] ∧
     ¬((wS.all_dataframes.flatten.map (fun q => q.symbol)).Nodup) ∧
     (finalize wS).1 = some (mergeStep wS.all_dataframes) ∧
     ((mergeStep wS.all_dataframes).map (fun q => q.symbol)).Nodup) := by
  have T := resume_without_state_refetches wBackend 2 wFS wPage (by decide)
    (Or.inl rfl) rfl (by decide) (by decide)
  exact ⟨T.1, T.2.1, T.2.2 1 BreakReason.endOfData wS (by decide)⟩

/-- C4: an interrupted-and-resumed harvest equals the uninterrupted one.
If a fresh run is interrupted while still looping, right after its N-th
fully checkpointed batch, then restarting with `resume_from_batch = N + 1`
over the directory it left behind produces, for any remaining fuel, the
very same result as letting the original run continue — in particular
the same merged, deduplicated dataset. -/
theorem resume_equals_uninterrupted
    (backend : Option String → Option Page) (fs0 : FS) (F k N : Nat) (s : LoopState)
    (hN : 1 ≤ N)
    (hreach : iterLoop backend k (initState none fs0) = Sum.inl s)
    (hpost : postBatchState s N) :
    download_all_symbols backend (k + F) none fs0 =
      download_all_symbols backend F (some (N + 1)) s.fs := by
  have h1 := runLoop_of_iterLoop backend k (initState none fs0) s F hreach
  have h2 := initState_resume_eq s N hN hpost
  unfold download_all_symbols
  rw [h2, h1]

/-- Witness for C4: the `okBackend` run interrupted after its first
checkpointed batch and resumed from batch 2 matches the uninterrupted
run exactly. -/
theorem resume_equals_uninterrupted_witness :
    download_all_symbols okBackend (1 + 5) none emptyFS =
      download_all_symbols okBackend 5 (some 2) wS4.fs :=
  resume_equals_uninterrupted okBackend emptyFS 5 1 1 wS4 (by decide)
    (by decide) (by decide)

/-- C7: termination.  When every fetch succeeds (in particular when the
backend eventually reports `hasMore=false`, a null cursor or an empty
page), a fresh `download_all_symbols` run finishes within 1000 loop
iterations and never through the consecutive-failures break; and once
the batch number has reached the hard ceiling, the very next successful
iteration is forced to stop through the safety-limit break — an early
stop, not the error break. -/
theorem termination_within_bound :
    (∀ (backend : Option String → Option Page) (fs0 : FS),
      (∀ c, (backend c).isSome = true) →
      ∃ r out fs', download_all_symbols backend 1000 none fs0 = some (r, out, fs') ∧
        r ≠ BreakReason.aborted) ∧
    (∀ (backend : Option String → Option Page) (s : LoopState) (p : Page),
      backend s.next_key = some p → p.symbolList.isEmpty = false →
      p.hasMore = true → p.nextKey ≠ none → 1000 ≤ s.batch →
      ∃ s', loopStep backend s = Sum.inr (BreakReason.ceiling, s')) := by
  constructor
  · intro backend fs0 hbk
    have hbatch : (initState none fs0).batch = 1 := by
      simp [initState]
    obtain ⟨r, s', hrun, hr⟩ := runLoop_term backend hbk 1000 (initState none fs0)
      (by omega) (by omega) (by omega)
    exact ⟨r, (finalize s').1, (finalize s').2, by simp [download_all_symbols, hrun], hr⟩
  · intro backend s p hp hne hmore hkey hbatch
    simp only [loopStep, hp, hne, Bool.false_eq_true, if_false]
    rw [if_neg (by simp [hmore, hkey])]
    rw [if_pos (by omega)]
    exact ⟨_, rfl⟩

/-- Witness for C7: a backend always returning an empty terminal page
makes a fresh run finish immediately, not through the error break. -/
theorem termination_within_bound_witness :
    ∃ r out fs',
      download_all_symbols (fun _ => some ⟨[], 0, false, none⟩) 1000 none emptyFS
        = some (r, out, fs') ∧ r ≠ BreakReason.aborted :=
  termination_within_bound.1 (fun _ => some ⟨[], 0, false, none⟩) emptyFS
    (fun _ => rfl)

/-- C1 (code bug evaluation): a fresh run whose first page succeeds and
whose second page then fails three times in a row stops through the
consecutive-failures break, yet the post-loop combine step still runs:
the merged output file is written and `download_state.json` is deleted,
so the checkpoint is NOT left on disk and a merged output IS produced.
Batch file 1 is untouched and no partially fetched batch was persisted,
but the run's return value looks like a successful completion. -/
theorem abort_after_success_keeps_no_checkpoint :
    download_all_symbols bugBackend 5 none emptyFS =
      some (BreakReason.aborted, some [wr1],
        FS.mk [(1, [wr1])] none (some [wr1])) := by decide

/-- C3 (code bug evaluation): when the `download_all_symbols` call inside
`main` raises — an operator KeyboardInterrupt or any other exception —
the `except` clauses catch and log it, but the `finally` block then reads
the local `result_df`, which was never assigned, and the resulting
`UnboundLocalError` escapes `main` as a crash; only the non-raising path
exits cleanly. -/
theorem main_unbound_result_df_crash :
    main_run DownloadOutcome.raisesKeyboardInterrupt =
      MainResult.crash "UnboundLocalError: local variable result_df referenced before assignment" ∧
    main_run (DownloadOutcome.raisesException "boom") =
      MainResult.crash "UnboundLocalError: local variable result_df referenced before assignment" ∧
    (∀ df, ∀ msg, main_run (DownloadOutcome.returns df) ≠ MainResult.crash msg) := by
  refine ⟨rfl, rfl, ?_⟩
  intro df msg
  cases df <;> simp [main_run]

/-- C8: the merge step concatenates the accumulated batches in order and
deduplicates on the symbol key: the output is a sublist of the ordered
concatenation (stable order, only drops), its keys are pairwise
distinct, every input key survives, the first occurrence of a key is
the record kept, merging a merged result again changes nothing, and an
already key-deduplicated list passes through unchanged. -/
theorem merge_dedup_properties (dfs : List (List Record)) (l : List Record) :
    mergeStep dfs = dedupBySymbol dfs.flatten ∧
    (dedupBySymbol l).Sublist l ∧
    ((mergeStep dfs).map (fun q => q.symbol)).Nodup ∧
    (∀ q ∈ l, ∃ q' ∈ dedupBySymbol l, q'.symbol = q.symbol) ∧
    (∀ pre (q : Record) post, l = pre ++ q :: post →
      q.symbol ∉ pre.map (fun x => x.symbol) → q ∈ dedupBySymbol l) ∧
    mergeStep [mergeStep dfs] = mergeStep dfs ∧
    ((l.map (fun q => q.symbol)).Nodup → dedupBySymbol l = l) := by
  refine ⟨rfl, dedupGo_sublist [] l, dedupGo_keys_nodup [] _, ?_, ?_, ?_, ?_⟩
  · intro q hq
    exact dedupGo_keys_complete [] l q hq (by simp)
  · intro pre q post hl hpre
    rw [hl]
    exact dedupGo_first_wins [] pre q post (by simp) hpre
  · have hflat : ([mergeStep dfs] : List (List Record)).flatten = mergeStep dfs := by
      simp
    show dedupBySymbol ([mergeStep dfs] : List (List Record)).flatten = mergeStep dfs
    rw [hflat]
    exact dedupGo_of_nodup [] _ (by simp) (dedupGo_keys_nodup [] _)
  · intro hnd
    exact dedupGo_of_nodup [] l (by simp) hnd

/-- Witness for C8 at concrete batches containing a duplicate symbol. -/
theorem merge_dedup_properties_witness :
    ((mergeStep [[wr1, wr2], [wr1]]).map (fun q => q.symbol)).Nodup ∧
    mergeStep [mergeStep [[wr1, wr2], [wr1]]] = mergeStep [[wr1, wr2], [wr1]] ∧
    dedupBySymbol [wr1, wr2] = [wr1, wr2] := by
  refine ⟨(merge_dedup_properties [[wr1, wr2], [wr1]] []).2.2.1,
    (merge_dedup_properties [[wr1, wr2], [wr1]] []).2.2.2.2.2.1,
    (merge_dedup_properties [] [wr1, wr2]).2.2.2.2.2.2 (by decide)⟩

/-- C9: every partition file `<output>/by_exchange/<e>/<t>.csv` written
from a key-deduplicated merged dataset holds only records whose
`exchange` equals `e` and whose `securityType` equals `t`, with no
duplicate symbol keys inside the file; and every per-(exchange, type)
group the downstream consumer builds from such a file likewise matches
its key. -/
theorem split_partition_properties (df : List Record) (e t : String)
    (hnodup : (df.map (fun q => q.symbol)).Nodup) :
    (∀ q ∈ split_symbols_by_exchange_and_type df e t,
        q.exchange = e ∧ q.securityType = t) ∧
    ((split_symbols_by_exchange_and_type df e t).map (fun q => q.symbol)).Nodup ∧
    (∀ e' t' q,
        q ∈ process_and_store_symbols (split_symbols_by_exchange_and_type df e t) e' t' →
        q.exchange = e' ∧ q.securityType = t') := by
  refine ⟨?_, ?_, ?_⟩
  · intro q hq
    rw [split_symbols_by_exchange_and_type, List.mem_filter] at hq
    have := hq.2
    simp only [Bool.and_eq_true, beq_iff_eq] at this
    exact this
  · exact hnodup.sublist
      ((List.filter_sublist df).map (fun q => q.symbol))
  · intro e' t' q hq
    rw [process_and_store_symbols, List.mem_filter] at hq
    obtain ⟨hq1, hq2⟩ := hq
    rw [List.mem_filter] at hq1
    simp only [beq_iff_eq] at hq1 hq2
    exact ⟨hq1.2, hq2⟩

/-- Witness for C9 at a concrete merged dataset. -/
theorem split_partition_properties_witness :
    (∀ q ∈ split_symbols_by_exchange_and_type [wr1, wr2] "NYSE" "EQUITY",
        q.exchange = "NYSE" ∧ q.securityType = "EQUITY") ∧
    ((split_symbols_by_exchange_and_type [wr1, wr2] "NYSE" "EQUITY").map
        (fun q => q.symbol)).Nodup ∧
    (∀ e' t' q,
        q ∈ process_and_store_symbols
          (split_symbols_by_exchange_and_type [wr1, wr2] "NYSE" "EQUITY") e' t' →
        q.exchange = e' ∧ q.securityType = t') :=
  split_partition_properties [wr1, wr2] "NYSE" "EQUITY" (by decide)

/-- C2 counterexample: the claim says a 4xx response, or a 200 `errors`
body without the transient-backend signature, makes `search_symbols`
return immediately with no further attempt.  In fact the loop body has
no early return on these classifications — it merely skips the back-off
sleep — so with `retry_count = 3` the fetcher still enters all 3
attempts (not 1) before returning the failure. -/
theorem client_error_still_retried_cex :
    (search_symbols (fun _ => Attempt.httpErr 404 "not found") 3 5).attemptsMade = 3 ∧
    (search_symbols (fun _ => Attempt.httpErr 404 "not found") 3 5).attemptsMade ≠ 1 ∧
    (search_symbols (fun _ => Attempt.httpOkErrors ["bad request"]) 3 5).attemptsMade = 3 ∧
    (search_symbols (fun _ => Attempt.httpOkErrors ["bad request"]) 3 5).attemptsMade ≠ 1 := by
  decide

/-- C2 (amended): on attempts whose outcome is a non-200 status below
500, a 200 `errors` body without the transient-backend signature, or a
malformed 200 body, the fetcher inserts no back-off sleep, but it does
not return early either: it proceeds through all `retry_count` attempts
and only then returns the failure, with `last_error` describing the
final attempt. -/
theorem client_error_no_backoff_all_attempts (oracle : Nat → Attempt)
    (rc rd : Nat) (hrc : 1 ≤ rc)
    (hcls : ∀ i, i < rc → isClientOrLogicError (oracle i) = true) :
    search_symbols oracle rc rd =
      ⟨none, some (describeFail (oracle (rc - 1))), rc, []⟩ :=
  searchGo_client_errors oracle rc rd rc 0 none [] (by omega) hrc
    (fun i _ hir => hcls i hir)

/-- Witness for the amended C2 at an all-404 transport. -/
theorem client_error_no_backoff_all_attempts_witness :
    search_symbols (fun _ => Attempt.httpErr 404 "not found") 3 5 =
      ⟨none, some (describeFail (Attempt.httpErr 404 "not found")), 3, []⟩ :=
  client_error_no_backoff_all_attempts (fun _ => Attempt.httpErr 404 "not found")
    3 5 (by decide) (fun i _ => rfl)

set_option maxRecDepth 4000 in
/-- C5 counterexample: the claim says a call that exhausts its attempts
returns a failure value carrying the last observed error description.
The source returns the bare `None` (the description is only logged):
two exhausted calls whose last observed errors differ return the very
same value, so the returned value carries no description at all. -/
theorem fetch_failure_carries_no_description_cex :
    (search_symbols (fun _ => Attempt.timeoutExc) 3 5).result = none ∧
    (search_symbols (fun _ => Attempt.httpErr 404 "nf") 3 5).result = none ∧
    (search_symbols (fun _ => Attempt.timeoutExc) 3 5).result =
      (search_symbols (fun _ => Attempt.httpErr 404 "nf") 3 5).result ∧
    (search_symbols (fun _ => Attempt.timeoutExc) 3 5).lastError ≠
      (search_symbols (fun _ => Attempt.httpErr 404 "nf") 3 5).lastError := by
  decide

/-- C5 (amended): a call on which no attempt yields a `data` body
exhausts all `retry_count` attempts and returns `None`; the last
observed error description is recorded in `last_error` (which the
source logs before returning) but is not part of the returned value.
In the embedding `search_symbols` is a total function, mirroring that
the source catches every exception class inside the loop and never
raises past its boundary. -/
theorem exhausted_attempts_return_none (oracle : Nat → Attempt)
    (rc rd : Nat) (hrc : 1 ≤ rc)
    (hfail : ∀ i, i < rc → ∀ p, oracle i ≠ Attempt.httpOkData p) :
    (search_symbols oracle rc rd).result = none ∧
    (search_symbols oracle rc rd).attemptsMade = rc ∧
    (search_symbols oracle rc rd).lastError
      = some (describeFail (oracle (rc - 1))) := by
  have h1 := searchGo_exhaust oracle rc rd rc 0 none [] (by omega)
    (fun i _ hir => hfail i hir)
  have h2 := searchGo_lastError oracle rc rd rc 0 none [] (by omega) hrc
    (fun i _ hir => hfail i hir)
  exact ⟨h1.1, by simpa using h1.2, h2⟩

/-- Witness for the amended C5 at an all-timeout transport. -/
theorem exhausted_attempts_return_none_witness :
    (search_symbols (fun _ => Attempt.timeoutExc) 3 5).result = none ∧
    (search_symbols (fun _ => Attempt.timeoutExc) 3 5).attemptsMade = 3 ∧
    (search_symbols (fun _ => Attempt.timeoutExc) 3 5).lastError
      = some (describeFail Attempt.timeoutExc) :=
  exhausted_attempts_return_none (fun _ => Attempt.timeoutExc) 3 5 (by decide)
    (fun i _ p h => by cases h)

/-- C6: within one `search_symbols(cursor, retryCount, retryDelay)` call
whose every attempt sees an HTTP status of 500 or more, the sleep
inserted after the 0-based failed attempt `i` (before attempt `i + 1`)
is `retryDelay * (i + 1)` seconds, the chronological sleep sequence is
non-decreasing, and exactly `retryCount` attempts are made before the
failure is returned. -/
theorem server_error_backoff_schedule (oracle : Nat → Attempt)
    (c : Nat → Nat) (b : Nat → String) (rc rd : Nat) (hrc : 1 ≤ rc)
    (horacle : ∀ i, i < rc → oracle i = Attempt.httpErr (c i) (b i))
    (hc : ∀ i, i < rc → 500 ≤ c i) :
    search_symbols oracle rc rd =
      ⟨none, some (httpErrMsg (c (rc - 1)) (b (rc - 1))), rc,
        (List.range (rc - 1)).map (fun i => rd * (i + 1))⟩ ∧
    ((List.range (rc - 1)).map (fun i => rd * (i + 1))).Pairwise (· ≤ ·) := by
  constructor
  · have h := searchGo_server_errors oracle rc rd c b rc 0 none [] (by omega) hrc
      (fun i _ hir => ⟨horacle i hir, hc i hir⟩)
    rw [search_symbols, h]
    rw [List.range_eq_range' (rc - 1)]
    simp
  · exact List.Pairwise.map _ (fun a b hab => Nat.mul_le_mul_left rd (by omega))
      (List.pairwise_lt_range (rc - 1))

/-- Witness for C6 with the default retry count 3 and delay 5: the
sleeps are 5 then 10 seconds and 3 attempts are made. -/
theorem server_error_backoff_schedule_witness :
    search_symbols (fun _ => Attempt.httpErr 500 "boom") 3 5 =
      ⟨none, some (httpErrMsg 500 "boom"), 3,
        (List.range 2).map (fun i => 5 * (i + 1))⟩ ∧
    ((List.range 2).map (fun i => 5 * (i + 1))).Pairwise (· ≤ ·) :=
  server_error_backoff_schedule (fun _ => Attempt.httpErr 500 "boom")
    (fun _ => 500) (fun _ => "boom") 3 5 (by decide) (fun i _ => rfl)
    (fun i _ => le_refl 500)
